import Mathlib

/-!
Shallow embedding of the core byte-buffer/view model of the HexEdit
repository (src/app/app.rs, src/app/files/files.rs,
src/app/plugins/app_context.rs), together with proofs about the claims
on view alignment, disassembly coverage, the offset index, session
open/save behaviour, scrolling, geometry and the plugin popup API.

Rust `Vec<u8>` buffers are embedded as `List Nat` (each element a byte
value), `usize` arithmetic as `Nat` (the embedded expressions stay far
below 2^64 wherever they are used, and every place where Rust's
subtraction on `usize` matters is exercised only on operands where
`Nat` subtraction agrees with it).  Fallible operations return
`Except` values, and the mutable `App` struct becomes explicit state
passing.

Functions of the repository whose defining module is not part of the
provided sources (the view builders in hex.rs/text.rs, the
disassembler adapter in assembly.rs, `Header::parse_header`,
`calc_blocks_per_row`, the scroll handlers in events.rs and `save`)
are modelled from the specification; each such definition carries a
doc comment starting with `Modelled from the spec:`.
-/

set_option maxHeartbeats 1000000

namespace HexEdit

/-- A byte of the in-memory buffer (`Vec<u8>` in the source); values are
below 256 but nothing in the claims depends on that bound. -/
abbrev Byte := Nat

/-- Uppercase hexadecimal digit for a nibble, as produced by Rust's
`{:X}` formatting used by the address and hex views. -/
def hexDigit (n : Nat) : Char :=
  if n % 16 < 10 then Char.ofNat (48 + n % 16) else Char.ofNat (55 + n % 16)

/-- Fixed-width (16 digit) uppercase hexadecimal label of an absolute
offset, as in the address view's `{:16X}` row labels. -/
def hexLabel (n : Nat) : String :=
  String.mk ((List.range 16).map (fun i => hexDigit (n / 16 ^ (15 - i))))

/-- Rendering of one hex-view row: every byte becomes two hex digits,
bytes are separated by one space and the gap after each `block_size`
bytes is widened to two spaces (the visual block clustering). -/
def renderHexRow (block_size : Nat) (row : List Byte) : String :=
  String.mk ((row.enum.map (fun p =>
    [hexDigit (p.2 / 16), hexDigit p.2]
      ++ (if (p.1 + 1) % block_size = 0 then [' ', ' '] else [' ']))).flatten)

/-- Rendering of one text-view row: one glyph per byte, printable ASCII
shown as itself and every other value replaced by the placeholder. -/
def renderTextRow (row : List Byte) : String :=
  String.mk (row.map (fun b => if 32 ≤ b ∧ b ≤ 126 then Char.ofNat b else '.'))

/-- Fuel-driven chunking of a list into consecutive pieces of `b`
elements (the last piece may be shorter).  The fuel argument makes the
recursion structural, so concrete instances evaluate inside the
kernel; `chunkBy` instantiates the fuel with the list length, which is
always enough when `0 < b`. -/
def chunkByFuel (b : Nat) : Nat → List Byte → List (List Byte)
  | 0, _ => []
  | _ + 1, [] => []
  | fuel + 1, a :: rest => ((a :: rest).take b) :: chunkByFuel b fuel ((a :: rest).drop b)

/-- Splits a buffer into its rows of `b` bytes each. -/
def chunkBy (b : Nat) (l : List Byte) : List (List Byte) :=
  chunkByFuel b l.length l

/-- Number of rows of the fixed-width views over a buffer of `len`
bytes with `bpr` bytes per row: `⌈len / bpr⌉`. -/
def num_rows (len bpr : Nat) : Nat := (len + bpr - 1) / bpr

/-- Modelled from the spec: the address view builder (`Self::addresses`,
defined in a module absent from the provided sources).  Row `i`'s label
is the absolute offset of its first byte, rendered fixed-width
hexadecimal; there is one row per `bytes_per_row` chunk of the
buffer. -/
def addresses (len block_size blocks_per_row : Nat) : List String :=
  (List.range (num_rows len (block_size * blocks_per_row))).map
    (fun i => hexLabel (i * (block_size * blocks_per_row)))

/-- Modelled from the spec: the hex view builder
(`Self::bytes_to_styled_hex`, defined in a module absent from the
provided sources).  The buffer is cut into rows of
`block_size * blocks_per_row` bytes and each row is rendered as
two-hex-digit groups clustered every `block_size` bytes. -/
def bytes_to_styled_hex (data : List Byte) (block_size blocks_per_row : Nat) : List String :=
  (chunkBy (block_size * blocks_per_row) data).map (renderHexRow block_size)

/-- Modelled from the spec: the text view builder
(`Self::bytes_to_styled_text`, defined in a module absent from the
provided sources).  The buffer is cut into the same rows as the hex
view and each byte becomes one glyph, with a placeholder for
non-printable values. -/
def bytes_to_styled_text (data : List Byte) (block_size blocks_per_row : Nat) : List String :=
  (chunkBy (block_size * blocks_per_row) data).map renderTextRow

/-- A decoded unit of machine code: start offset in the buffer, byte
length and rendered text (mirrors the instruction records produced by
the disassembler adapter). -/
structure Instruction where
  start_offset : Nat
  length : Nat
  rendered_text : String
deriving Repr, DecidableEq

/-- The external decoding primitive: given the remaining bytes of the
region being decoded, it returns the rendered text and byte length of
the instruction at the start of those bytes, or `none` when the bytes
cannot be decoded.  Its contract (spec section 6) is
`length ≥ 1` and the instruction never extends past the given bytes. -/
abbrev DecodeOne := List Byte → Option (String × Nat)

/-- States that the decoding primitive honours its contract: a decoded
instruction has length at least 1 and at most the number of remaining
bytes. -/
def DecodeOneContract (d : DecodeOne) : Prop :=
  ∀ bs t l, d bs = some (t, l) → 1 ≤ l ∧ l ≤ bs.length

/-- Modelled from the spec: the decoder adapter's region loop (behind
`Self::assembly_from_bytes` and `Self::sections_from_bytes`, defined
in a module absent from the provided sources).  It repeatedly asks the
primitive for the instruction at the current offset; when the
primitive cannot decode, a 1-byte `(invalid)` pseudo-instruction is
synthesized so the cursor always advances.  The fuel argument
(instantiated with the region length) makes the recursion structural;
the consumed length is forced into `[1, remaining]`, which is the
identity for any primitive honouring `DecodeOneContract`. -/
def decodeFuel (d : DecodeOne) : Nat → List Byte → Nat → List Instruction
  | 0, _, _ => []
  | _ + 1, [], _ => []
  | fuel + 1, b :: rest, offset =>
    let p := match d (b :: rest) with
      | some q => q
      | none => ("(invalid)", 1)
    let len := min (max 1 p.2) (rest.length + 1)
    Instruction.mk offset len p.1 :: decodeFuel d fuel ((b :: rest).drop len) (offset + len)

/-- Decoding of one region: the bytes are the region's slice of the
buffer and `offset` is the region's absolute start offset. -/
def decode_region (d : DecodeOne) (bytes : List Byte) (offset : Nat) : List Instruction :=
  decodeFuel d bytes.length bytes offset

/-- `covers s e l = true` iff the instructions `l` tile the half-open
offset range `[s, e)` exactly: the first starts at `s`, every
instruction has length at least 1 and starts where the previous one
ended, and the last ends at `e`.  This packages strictly-ascending,
non-overlapping and gapless in one predicate. -/
def covers : Nat → Nat → List Instruction → Bool
  | s, e, [] => s == e
  | s, e, i :: rest =>
    (i.start_offset == s) && decide (1 ≤ i.length) && covers (s + i.length) e rest

/-- A named contiguous byte range of the buffer, optionally marked
executable (mirrors the section records of the header model). -/
structure HSection where
  name : String
  start_offset : Nat
  size : Nat
  is_executable : Bool
deriving Repr, DecidableEq

/-- The payload of a recognized executable header: format kind tag,
architecture tag, bitness, entry point and ordered section list. -/
structure GenericHeader where
  file_type : Nat
  architecture : Nat
  bitness : Nat
  entry_point : Nat
  sections : List HSection
deriving Repr, DecidableEq

/-- The tagged union `Header`: either no recognized header or a
recognized one (`Header::GenericHeader` / `Header::None` in
files.rs). -/
inductive Header where
  | none : Header
  | genericHeader : GenericHeader → Header
deriving Repr, DecidableEq

/-- Bitness exposed by a header; with no recognized header the
consumers assume 64-bit (files.rs logs "No header found. Assuming
64-bit."). -/
def Header.bitness : Header → Nat
  | Header.none => 64
  | Header.genericHeader h => h.bitness

/-- Modelled from the spec: `Header::parse_header` (called at files.rs
line 181, defined in a module absent from the provided sources).  The
signature-table matching itself is the external collaborator
`recognize`; on a match the extracted metadata is wrapped in
`Header.genericHeader`, and on no match the result is the
`Header.none` variant — never an error.  As a Lean function it is
total, so parsing cannot fail. -/
def parse_header (recognize : List Byte → Option GenericHeader) (bytes : List Byte) :
    Header :=
  match recognize bytes with
  | some gh => Header.genericHeader gh
  | none => Header.none

/-- The regions submitted to the decoder for a buffer of `len` bytes:
with no recognized header the whole buffer is one region starting at
offset 0; with a recognized header, exactly the sections marked
executable, each as `[start_offset, start_offset + size)`. -/
def decoded_regions (h : Header) (len : Nat) : List (Nat × Nat) :=
  match h with
  | Header.none => [(0, len)]
  | Header.genericHeader gh =>
    (gh.sections.filter (fun s => s.is_executable)).map
      (fun s => (s.start_offset, s.start_offset + s.size))

/-- Per-region decoded instruction lists for a buffer under a header. -/
def region_instructions (d : DecodeOne) (bytes : List Byte) (h : Header) :
    List (List Instruction) :=
  (decoded_regions h bytes.length).map
    (fun r => decode_region d ((bytes.drop r.1).take (r.2 - r.1)) r.1)

/-- Modelled from the spec: `Self::sections_from_bytes` (defined in a
module absent from the provided sources, its call site is files.rs
line 188).  Decodes every region and returns the ordered sequence of
instruction start offsets (consumed as `assembly_offsets`) together
with the concatenated instruction list. -/
def sections_from_bytes (d : DecodeOne) (bytes : List Byte) (h : Header) :
    List Nat × List Instruction :=
  let instrs := (region_instructions d bytes h).flatten
  (instrs.map (fun i => i.start_offset), instrs)

/-- Modelled from the spec: the offset→instruction-index lookup over
the ascending `assembly_offsets` sequence (the `App.assembly_offsets`
field is declared in app.rs line 18; the lookup itself lives in a
module absent from the provided sources).  It returns the index of the
last offset that is at most `o`; with no such offset (o before the
first region) the subtraction truncates to index 0, and past the last
offset every entry is counted so the result is the last index.  The
number of entries `≤ o` is computed by a count, which on a sorted
sequence agrees with the binary search of the source. -/
def offset_to_instruction_index (offsets : List Nat) (o : Nat) : Nat :=
  offsets.countP (fun s => decide (s ≤ o)) - 1

/-- Modelled from the spec: `Self::calc_blocks_per_row` (called at
files.rs line 167, defined in a module absent from the provided
sources).  It chooses the largest `blocks_per_row` such that the
address column (17 cells, app.rs line 210), the hex column
(`block_size*3*r + r` cells, app.rs line 211) and the text column
(`block_size*2*r + r` cells, app.rs line 212) fit in the viewport
width — each extra block costs `5*block_size + 2` cells — and falls
back to 1 when the viewport is too narrow for more. -/
def calc_blocks_per_row (block_size width : Nat) : Nat :=
  max 1 ((width - 17) / (5 * block_size + 2))

/-- The info-view mode of the session (`InfoMode` in the source). -/
inductive InfoMode where
  | text : InfoMode
  | assembly : InfoMode
deriving Repr, DecidableEq

/-- The session state mutated by `open_file` (files.rs lines 154-197):
identity, dirty flag, view coordinates, geometry, the byte buffer, the
parsed header and the offset index. -/
structure AppState where
  path : String
  dirty : Bool
  info_mode : InfoMode
  scroll : Nat
  cursor : Nat × Nat
  screen_size : Nat × Nat
  block_size : Nat
  vertical_margin : Nat
  blocks_per_row : Nat
  data : List Byte
  header : Header
  assembly_offsets : List Nat
  assembly_instructions : List Instruction
deriving Repr, DecidableEq

/-- `App::open_file` (files.rs lines 154-197) as a state transformer.
The filesystem is the function `fs` (`std::fs::read` reads
`fs path`); `recognize` and `d` are the external header matcher and
decoding primitive, and `screen_size` is what the terminal reports.
Faithful to the source, the session identity, dirty flag, info mode,
scroll, cursor and geometry are reset BEFORE the fallible read; when
the read fails the function returns the error with those fields
already overwritten and only the buffer, header and offset index still
holding the previous session's values. -/
def open_file (recognize : List Byte → Option GenericHeader) (d : DecodeOne)
    (fs : String → Option (List Byte)) (st : AppState) (path : String)
    (screen_size : Nat × Nat) : AppState × Except String Unit :=
  let st1 : AppState :=
    { st with
      path := path
      dirty := false
      info_mode := InfoMode.text
      scroll := 0
      cursor := (0, 0)
      screen_size := screen_size
      block_size := 8
      vertical_margin := 2
      blocks_per_row := calc_blocks_per_row 8 screen_size.1 }
  match fs path with
  | none => (st1, Except.error "read failed")
  | some data =>
    let header := parse_header recognize data
    let oi := sections_from_bytes d data header
    ({ st1 with
        data := data
        header := header
        assembly_offsets := oi.1
        assembly_instructions := oi.2 }, Except.ok ())

/-- Resize notification: recomputes the geometry from the new viewport
width and the current block size, leaving everything else alone. -/
def resize (st : AppState) (width : Nat) : AppState :=
  { st with blocks_per_row := calc_blocks_per_row st.block_size width }

/-- Pointwise update of the filesystem map at one path. -/
def fs_update (fs : String → Option (List Byte)) (path : String) (data : List Byte) :
    String → Option (List Byte) :=
  fun p => if p = path then some data else fs p

/-- Modelled from the spec: `save` (absent from the provided sources)
writes the in-memory buffer back to the session's path byte-for-byte,
leaving every other file untouched. -/
def save (fs : String → Option (List Byte)) (st : AppState) :
    String → Option (List Byte) :=
  fs_update fs st.path st.data

/-- The per-session scroll/cursor coordinates: `scroll` counts
address/hex/text rows, `assembly_scroll` counts instructions (fields
of `App`, app.rs lines 19-22). -/
structure ViewState where
  scroll : Nat
  assembly_scroll : Nat
  cursor : Nat × Nat
  dirty : Bool
deriving Repr, DecidableEq

/-- Modelled from the spec: the address/hex/text scroll mutator of the
event handlers (events.rs is absent from the provided sources).  It
moves `scroll` by `delta` rows clamped to `[0, num_rows]` and touches
no other field. -/
def scroll_by (st : ViewState) (delta : Int) (numRows : Nat) : ViewState :=
  { st with scroll := min (Int.toNat (Int.ofNat st.scroll + delta)) numRows }

/-- Modelled from the spec: the assembly scroll mutator of the event
handlers (events.rs is absent from the provided sources).  It moves
`assembly_scroll` by `delta` instructions clamped to
`[0, num_instructions]` and touches no other field. -/
def assembly_scroll_by (st : ViewState) (delta : Int) (numInstructions : Nat) : ViewState :=
  { st with
    assembly_scroll := min (Int.toNat (Int.ofNat st.assembly_scroll + delta))
      numInstructions }

/-- Modelled from the spec: the view state created at file open (or
full reload): `scroll` starts at 0 and `assembly_scroll` is
initialized via `offset_to_instruction_index (scroll * bytes_per_row)`
so the two panes start aligned. -/
def open_view (offsets : List Nat) (bytes_per_row : Nat) : ViewState :=
  { scroll := 0
    assembly_scroll := offset_to_instruction_index offsets (0 * bytes_per_row)
    cursor := (0, 0)
    dirty := false }

/-- The render-relevant state of the original `App` (app.rs lines
8-31): the buffer, the geometry and the three stored fixed-width
views, plus the scroll position. -/
structure RunState where
  data : List Byte
  block_size : Nat
  blocks_per_row : Nat
  scroll : Nat
  address_view : List String
  hex_view : List String
  text_view : List String
deriving Repr, DecidableEq

/-- `App::new` (app.rs lines 35-67): block size 8, 3 blocks per row,
scroll 0, and the three views built from the buffer. -/
def App.new (data : List Byte) : RunState :=
  { data := data
    block_size := 8
    blocks_per_row := 3
    scroll := 0
    address_view := addresses data.length 8 3
    hex_view := bytes_to_styled_hex data 8 3
    text_view := bytes_to_styled_text data 8 3 }

/-- The states reachable by the render loop: the state built by
`App::new` plus any scroll movement.  The scroll mutator is modelled
from the spec (events.rs is absent from the provided sources): per the
spec it is clamped to the number of available rows. -/
inductive Reachable : RunState → Prop where
  | init (data : List Byte) : Reachable (App.new data)
  | scroll_to (st : RunState) (n : Nat) : Reachable st → n ≤ st.hex_view.length →
      Reachable { st with scroll := n }

/-- Start of the row window sliced by the render pass
(`line_start_index`, app.rs line 217). -/
def line_start_index (st : RunState) : Nat := st.scroll

/-- End of the row window sliced by the render pass
(`line_end_index`, app.rs line 218):
`min (scroll + height - 2) hex_view.lines.len()`. -/
def line_end_index (st : RunState) (height : Nat) : Nat :=
  min (st.scroll + height - 2) st.hex_view.length

/-- The render pass's slices
`address_view.lines[start..end]`, `hex_view.lines[start..end]` and
`text_view.lines[start..end]` (app.rs lines 220, 224 and 241) are in
bounds: Rust's `&v[a..b]` panics unless `a ≤ b ∧ b ≤ v.len()`. -/
def slice_in_bounds (st : RunState) (height : Nat) : Prop :=
  line_start_index st ≤ line_end_index st height
  ∧ line_end_index st height ≤ st.address_view.length
  ∧ line_end_index st height ≤ st.hex_view.length
  ∧ line_end_index st height ≤ st.text_view.length

/-- The plugin-facing context (app_context.rs lines 7-14); the logger
is out of the claims' scope and omitted. -/
structure AppContext where
  plugin_index : Option Nat
  popup : Option (Nat × String)
  exported_commands : List (String × String)
deriving Repr, DecidableEq

/-- The `open_popup` Lua method (app_context.rs lines 66-83) as a state
transformer.  `globals callback` tells whether a Lua global function
named `callback` exists.  The source's `plugin_index.unwrap()` is a
panic when `plugin_index` is `None`; that case is modelled as an error
that leaves the context unchanged and the claims about this function
are stated under `plugin_index = some i`. -/
def open_popup (globals : String → Bool) (ctx : AppContext) (callback : String) :
    AppContext × Except String Unit :=
  if ctx.popup.isSome then
    (ctx, Except.error "Popup already open")
  else if globals callback = false then
    (ctx, Except.error ("Function '" ++ callback ++ "' not found but needed to open the popup"))
  else
    match ctx.plugin_index with
    | some i => ({ ctx with popup := some (i, callback) }, Except.ok ())
    | none => (ctx, Except.error "plugin_index is None")

theorem hexEdit_ceilDiv_succ (b n : Nat) (hb : 0 < b) (hn : 0 < n) :
    (n + b - 1) / b = (n - 1) / b + 1 := by
  have h1 : n + b - 1 = (n - 1) + b := by omega
  rw [h1, Nat.add_div_right _ hb]

theorem chunkByFuel_length (b : Nat) (hb : 0 < b) :
    ∀ (fuel : Nat) (l : List Byte), l.length ≤ fuel →
      (chunkByFuel b fuel l).length = (l.length + b - 1) / b := by
  intro fuel
  induction fuel with
  | zero =>
    intro l hl
    have : l = [] := List.length_eq_zero.mp (Nat.le_zero.mp hl)
    subst this
    simp [chunkByFuel, Nat.div_eq_of_lt, hb]
  | succ f ih =>
    intro l hl
    cases l with
    | nil => simp [chunkByFuel, Nat.div_eq_of_lt, hb]
    | cons a rest =>
      have hdroplen : ((a :: rest).drop b).length = (a :: rest).length - b := by
        simp [List.length_drop]
      have hle : ((a :: rest).drop b).length ≤ f := by
        rw [hdroplen]
        simp only [List.length_cons] at hl ⊢
        omega
      have hrec := ih ((a :: rest).drop b) hle
      simp only [chunkByFuel, List.length_cons]
      rw [hrec, hdroplen]
      simp only [List.length_cons]
      rw [hexEdit_ceilDiv_succ b (rest.length + 1) hb (by omega)]
      rcases le_or_lt (rest.length + 1) b with hcase | hcase
      · have h0 : rest.length + 1 - b = 0 := by omega
        rw [h0]
        have h1 : (0 + b - 1) / b = 0 := Nat.div_eq_of_lt (by omega)
        have h2 : (rest.length + 1 - 1) / b = 0 := Nat.div_eq_of_lt (by omega)
        omega
      · rw [hexEdit_ceilDiv_succ b (rest.length + 1 - b) hb (by omega)]
        have h2 : rest.length + 1 - 1 = (rest.length + 1 - b - 1) + b := by omega
        rw [h2, Nat.add_div_right _ hb]

theorem chunkBy_length (b : Nat) (l : List Byte) (hb : 0 < b) :
    (chunkBy b l).length = num_rows l.length b :=
  chunkByFuel_length b hb l.length l (Nat.le_refl _)

theorem chunkByFuel_get (b : Nat) (hb : 0 < b) :
    ∀ (fuel : Nat) (l : List Byte) (i : Nat), l.length ≤ fuel →
      i < (chunkByFuel b fuel l).length →
      (chunkByFuel b fuel l).get? i = some ((l.drop (i * b)).take b) := by
  intro fuel
  induction fuel with
  | zero =>
    intro l i hl hi
    simp [chunkByFuel] at hi
  | succ f ih =>
    intro l i hl hi
    cases l with
    | nil => simp [chunkByFuel] at hi
    | cons a rest =>
      cases i with
      | zero => simp [chunkByFuel]
      | succ j =>
        simp only [chunkByFuel, List.length_cons, List.get?_cons_succ] at hi ⊢
        have hle : ((a :: rest).drop b).length ≤ f := by
          simp only [List.length_drop, List.length_cons] at hl ⊢
          omega
        rw [ih ((a :: rest).drop b) j hle (by omega)]
        rw [List.drop_drop, Nat.succ_mul]
        rw [Nat.add_comm b (j * b)]

theorem chunkBy_get (b : Nat) (l : List Byte) (i : Nat) (hb : 0 < b)
    (hi : i < num_rows l.length b) :
    (chunkBy b l).get? i = some ((l.drop (i * b)).take b) := by
  have hlen := chunkBy_length b l hb
  exact chunkByFuel_get b hb l.length l i (Nat.le_refl _) (by rw [chunkBy] at hlen; omega)

theorem slice_is_row_range (l : List Byte) (i b : Nat) :
    ((l.drop (i * b)).take b).length = min ((i + 1) * b) l.length - i * b := by
  simp only [List.length_take, List.length_drop]
  rw [Nat.succ_mul]
  omega

/-- C1: for every buffer and every geometry (`block_size`,
`blocks_per_row` with `bytes_per_row > 0`), the address, hex and text
view builders produce sequences of identical length, and for every row
index `i` each of the three rows covers exactly the byte range
`[i*bytes_per_row, min((i+1)*bytes_per_row, buffer.len()))`: the
address row is the label of that range's first offset, and the hex and
text rows are renderings of exactly the slice
`(data.drop (i*bpr)).take bpr`, whose length is shown equal to
`min ((i+1)*bpr) len - i*bpr`. -/
theorem views_row_aligned (data : List Byte) (block_size blocks_per_row : Nat)
    (hpos : 0 < block_size * blocks_per_row) :
    (addresses data.length block_size blocks_per_row).length
      = (bytes_to_styled_hex data block_size blocks_per_row).length
    ∧ (bytes_to_styled_hex data block_size blocks_per_row).length
      = (bytes_to_styled_text data block_size blocks_per_row).length
    ∧ (∀ i, i < (bytes_to_styled_hex data block_size blocks_per_row).length →
        (addresses data.length block_size blocks_per_row).get? i
            = some (hexLabel (i * (block_size * blocks_per_row)))
        ∧ (bytes_to_styled_hex data block_size blocks_per_row).get? i
            = some (renderHexRow block_size
                ((data.drop (i * (block_size * blocks_per_row))).take
                  (block_size * blocks_per_row)))
        ∧ (bytes_to_styled_text data block_size blocks_per_row).get? i
            = some (renderTextRow
                ((data.drop (i * (block_size * blocks_per_row))).take
                  (block_size * blocks_per_row)))
        ∧ ((data.drop (i * (block_size * blocks_per_row))).take
              (block_size * blocks_per_row)).length
            = min ((i + 1) * (block_size * blocks_per_row)) data.length
                - i * (block_size * blocks_per_row)) := by
  have hhex : (bytes_to_styled_hex data block_size blocks_per_row).length
      = num_rows data.length (block_size * blocks_per_row) := by
    simp [bytes_to_styled_hex, chunkBy_length _ _ hpos]
  have htext : (bytes_to_styled_text data block_size blocks_per_row).length
      = num_rows data.length (block_size * blocks_per_row) := by
    simp [bytes_to_styled_text, chunkBy_length _ _ hpos]
  have haddr : (addresses data.length block_size blocks_per_row).length
      = num_rows data.length (block_size * blocks_per_row) := by
    simp [addresses]
  refine ⟨by omega, by omega, ?_⟩
  intro i hi
  rw [hhex] at hi
  refine ⟨?_, ?_, ?_, slice_is_row_range data i (block_size * blocks_per_row)⟩
  · rw [addresses, List.get?_map, List.get?_range hi]
    rfl
  · rw [bytes_to_styled_hex, List.get?_map, chunkBy_get _ _ _ hpos hi]
    rfl
  · rw [bytes_to_styled_text, List.get?_map, chunkBy_get _ _ _ hpos hi]
    rfl

/-- Witness for C1 at a concrete buffer and geometry. -/
theorem views_row_aligned_witness :
    0 < 1 * 2
    ∧ ((addresses ([0, 65, 200] : List Byte).length 1 2).length
        = (bytes_to_styled_hex [0, 65, 200] 1 2).length
      ∧ (bytes_to_styled_hex ([0, 65, 200] : List Byte) 1 2).length
        = (bytes_to_styled_text [0, 65, 200] 1 2).length
      ∧ (∀ i, i < (bytes_to_styled_hex ([0, 65, 200] : List Byte) 1 2).length →
          (addresses ([0, 65, 200] : List Byte).length 1 2).get? i
              = some (hexLabel (i * (1 * 2)))
          ∧ (bytes_to_styled_hex ([0, 65, 200] : List Byte) 1 2).get? i
              = some (renderHexRow 1
                  ((([0, 65, 200] : List Byte).drop (i * (1 * 2))).take (1 * 2)))
          ∧ (bytes_to_styled_text ([0, 65, 200] : List Byte) 1 2).get? i
              = some (renderTextRow
                  ((([0, 65, 200] : List Byte).drop (i * (1 * 2))).take (1 * 2)))
          ∧ ((([0, 65, 200] : List Byte).drop (i * (1 * 2))).take (1 * 2)).length
              = min ((i + 1) * (1 * 2)) ([0, 65, 200] : List Byte).length
                  - i * (1 * 2))) :=
  ⟨by decide, views_row_aligned [0, 65, 200] 1 2 (by decide)⟩

theorem covers_decodeFuel (d : DecodeOne) :
    ∀ (fuel : Nat) (bytes : List Byte) (offset : Nat), bytes.length ≤ fuel →
      covers offset (offset + bytes.length) (decodeFuel d fuel bytes offset) = true := by
  intro fuel
  induction fuel with
  | zero =>
    intro bytes offset hl
    have : bytes = [] := List.length_eq_zero.mp (Nat.le_zero.mp hl)
    subst this
    simp [decodeFuel, covers]
  | succ f ih =>
    intro bytes offset hl
    cases bytes with
    | nil => simp [decodeFuel, covers]
    | cons b rest =>
      simp only [decodeFuel, covers, Bool.and_eq_true, beq_iff_eq, decide_eq_true_eq]
      set p := (match d (b :: rest) with
        | some q => q
        | none => ("(invalid)", 1)) with hp
      set len := min (max 1 p.2) (rest.length + 1) with hlen
      have hlen1 : 1 ≤ len := by
        rw [hlen]
        omega
      have hlenle : len ≤ rest.length + 1 := by
        rw [hlen]
        omega
      refine ⟨⟨trivial, hlen1⟩, ?_⟩
      have hdl : ((b :: rest).drop len).length = rest.length + 1 - len := by
        simp [List.length_drop]
      have hle : ((b :: rest).drop len).length ≤ f := by
        rw [hdl]
        simp only [List.length_cons] at hl
        omega
      have := ih ((b :: rest).drop len) (offset + len) hle
      rw [hdl] at this
      have harith : offset + len + (rest.length + 1 - len) = offset + (rest.length + 1) := by
        omega
      rw [harith] at this
      simpa using this

/-- When the primitive cannot decode the bytes at the current offset,
the adapter emits exactly the 1-byte invalid pseudo-instruction there
and resumes one byte further. -/
theorem decode_region_invalid_step (d : DecodeOne) (b : Byte) (rest : List Byte)
    (offset : Nat) (hnone : d (b :: rest) = none) :
    decode_region d (b :: rest) offset
      = Instruction.mk offset 1 "(invalid)" :: decodeFuel d rest.length rest (offset + 1) := by
  simp [decode_region, decodeFuel, hnone]

/-- C2: for every buffer and every header whose regions lie inside the
buffer, the decoded instruction sequence of each region tiles the
region exactly (`covers`): strictly ascending, non-overlapping and
gapless over `[region.start, region.end)`, with every instruction of
length at least 1 (`covers` demands it, and `decode_region` is a total
function, so decoding any finite buffer terminates); moreover whenever
the external primitive cannot decode the bytes at an offset, the
1-byte invalid pseudo-instruction is emitted there. -/
theorem region_decoding_gapless (d : DecodeOne) (bytes : List Byte) (h : Header)
    (hwf : ∀ r ∈ decoded_regions h bytes.length, r.1 ≤ r.2 ∧ r.2 ≤ bytes.length) :
    (∀ r ∈ decoded_regions h bytes.length,
      covers r.1 r.2 (decode_region d ((bytes.drop r.1).take (r.2 - r.1)) r.1) = true)
    ∧ (∀ (b : Byte) (rest : List Byte) (offset : Nat), d (b :: rest) = none →
        (decode_region d (b :: rest) offset).head?
          = some (Instruction.mk offset 1 "(invalid)")) := by
  constructor
  · intro r hr
    have hcov := covers_decodeFuel d ((bytes.drop r.1).take (r.2 - r.1)).length
      ((bytes.drop r.1).take (r.2 - r.1)) r.1 (Nat.le_refl _)
    have harith : r.1 + ((bytes.drop r.1).take (r.2 - r.1)).length = r.2 := by
      have := hwf r hr
      simp only [List.length_take, List.length_drop]
      omega
    rw [harith] at hcov
    exact hcov
  · intro b rest offset hnone
    rw [decode_region_invalid_step d b rest offset hnone]
    rfl

/-- Witness for C2 at a concrete primitive (decodes a 2-byte
instruction whenever the first byte is 144, otherwise fails), buffer
and recognized header with one executable section. -/
theorem region_decoding_gapless_witness :
    (∀ r ∈ decoded_regions
        (Header.genericHeader (GenericHeader.mk 0 0 64 0 [HSection.mk "t" 1 4 true]))
        ([9, 144, 7, 144, 5, 3] : List Byte).length, r.1 ≤ r.2 ∧ r.2 ≤ 6)
    ∧ ((∀ r ∈ decoded_regions
          (Header.genericHeader (GenericHeader.mk 0 0 64 0 [HSection.mk "t" 1 4 true]))
          ([9, 144, 7, 144, 5, 3] : List Byte).length,
        covers r.1 r.2
          (decode_region
            (fun bs => match bs with
              | 144 :: _ :: _ => some ("nop2", 2)
              | _ => none)
            ((([9, 144, 7, 144, 5, 3] : List Byte).drop r.1).take (r.2 - r.1)) r.1) = true)
      ∧ (∀ (b : Byte) (rest : List Byte) (offset : Nat),
          (fun bs => match bs with
            | 144 :: _ :: _ => some (("nop2", 2) : String × Nat)
            | _ => none) (b :: rest) = none →
          (decode_region
            (fun bs => match bs with
              | 144 :: _ :: _ => some ("nop2", 2)
              | _ => none) (b :: rest) offset).head?
            = some (Instruction.mk offset 1 "(invalid)"))) :=
  ⟨by decide,
   region_decoding_gapless
     (fun bs => match bs with
       | 144 :: _ :: _ => some ("nop2", 2)
       | _ => none)
     [9, 144, 7, 144, 5, 3]
     (Header.genericHeader (GenericHeader.mk 0 0 64 0 [HSection.mk "t" 1 4 true]))
     (by decide)⟩

theorem sorted_countP_le (o : Nat) :
    ∀ (offsets : List Nat), List.Sorted (· ≤ ·) offsets →
      ∀ j v, offsets.get? j = some v →
        (v ≤ o ↔ j < offsets.countP (fun s => decide (s ≤ o))) := by
  intro offsets
  induction offsets with
  | nil =>
    intro _ j v h
    simp at h
  | cons x rest ih =>
    intro hsort j v hget
    have hsx : ∀ y ∈ rest, x ≤ y := (List.sorted_cons.mp hsort).1
    have hsr : List.Sorted (· ≤ ·) rest := (List.sorted_cons.mp hsort).2
    cases j with
    | zero =>
      have hxv : x = v := by simpa using hget
      subst hxv
      constructor
      · intro hx
        have hpos : 0 < (x :: rest).countP (fun s => decide (s ≤ o)) :=
          List.countP_pos.mpr ⟨x, by simp, by simpa using hx⟩
        omega
      · intro hpos
        by_contra hx
        have hzero : (x :: rest).countP (fun s => decide (s ≤ o)) = 0 := by
          rw [List.countP_eq_zero]
          intro a ha
          simp only [List.mem_cons] at ha
          simp only [decide_eq_true_eq]
          rcases ha with rfl | ha
          · omega
          · have := hsx a ha
            omega
        omega
    | succ j' =>
      simp only [List.get?_cons_succ] at hget
      have hvmem : v ∈ rest := List.get?_mem hget
      have hiff := ih hsr j' v hget
      rw [List.countP_cons]
      by_cases hx : x ≤ o
      · have hdx : decide (x ≤ o) = true := decide_eq_true hx
        simp only [hdx, if_true]
        rw [hiff]
        omega
      · have hdx : decide (x ≤ o) = false := decide_eq_false hx
        simp only [hdx, if_false]
        have hrest : rest.countP (fun s => decide (s ≤ o)) = 0 := by
          rw [List.countP_eq_zero]
          intro a ha
          have := hsx a ha
          simp only [decide_eq_true_eq]
          omega
        have hv : ¬ v ≤ o := by
          have := hsx v hvmem
          omega
        simp [hrest, hv]

/-- C3: on every ascending offset index, `offset_to_instruction_index`
returns a valid index which is the last one whose offset is at most
`o` (it dominates every index with offset `≤ o`, and its own offset is
`≤ o` whenever any is); offsets before the first entry resolve to
index 0, offsets at or past every entry resolve to the last index, and
the lookup is monotone non-decreasing. -/
theorem offset_to_instruction_index_spec (offsets : List Nat) (o o1 o2 : Nat)
    (hsorted : List.Sorted (· ≤ ·) offsets) (hne : offsets ≠ []) (h12 : o1 ≤ o2) :
    offset_to_instruction_index offsets o < offsets.length
    ∧ (∀ j v, offsets.get? j = some v → v ≤ o →
        j ≤ offset_to_instruction_index offsets o
        ∧ ∃ w, offsets.get? (offset_to_instruction_index offsets o) = some w ∧ w ≤ o)
    ∧ ((∀ v ∈ offsets, o < v) → offset_to_instruction_index offsets o = 0)
    ∧ ((∀ v ∈ offsets, v ≤ o) →
        offset_to_instruction_index offsets o = offsets.length - 1)
    ∧ offset_to_instruction_index offsets o1 ≤ offset_to_instruction_index offsets o2 := by
  have hlenpos : 0 < offsets.length := List.length_pos.mpr hne
  have hcle : offsets.countP (fun s => decide (s ≤ o)) ≤ offsets.length :=
    List.countP_le_length _
  refine ⟨?_, ?_, ?_, ?_, ?_⟩
  · simp only [offset_to_instruction_index]
    omega
  · intro j v hget hvo
    have hjc := (sorted_countP_le o offsets hsorted j v hget).mp hvo
    constructor
    · simp only [offset_to_instruction_index]
      omega
    · rcases hk : offsets.get? (offset_to_instruction_index offsets o) with _ | w
      · rw [List.get?_eq_none] at hk
        simp only [offset_to_instruction_index] at hk
        omega
      · refine ⟨w, rfl, ?_⟩
        have := (sorted_countP_le o offsets hsorted _ w hk).mpr
        simp only [offset_to_instruction_index] at this
        exact this (by omega)
  · intro hall
    have hz : offsets.countP (fun s => decide (s ≤ o)) = 0 := by
      rw [List.countP_eq_zero]
      intro a ha
      have := hall a ha
      simp only [decide_eq_true_eq]
      omega
    simp only [offset_to_instruction_index, hz]
  · intro hall
    have hl : offsets.countP (fun s => decide (s ≤ o)) = offsets.length := by
      rw [List.countP_eq_length]
      intro a ha
      simp only [decide_eq_true_eq]
      exact hall a ha
    simp only [offset_to_instruction_index, hl]
  · simp only [offset_to_instruction_index]
    have : offsets.countP (fun s => decide (s ≤ o1))
        ≤ offsets.countP (fun s => decide (s ≤ o2)) := by
      apply List.countP_mono_left
      intro a _ ha
      simp only [decide_eq_true_eq] at ha ⊢
      omega
    omega

/-- Witness for C3 at a concrete ascending offset index. -/
theorem offset_to_instruction_index_spec_witness :
    List.Sorted (· ≤ ·) ([0, 4, 6] : List Nat) ∧ ([0, 4, 6] : List Nat) ≠ [] ∧ 2 ≤ 5
    ∧ (offset_to_instruction_index [0, 4, 6] 5 < ([0, 4, 6] : List Nat).length
      ∧ (∀ j v, ([0, 4, 6] : List Nat).get? j = some v → v ≤ 5 →
          j ≤ offset_to_instruction_index [0, 4, 6] 5
          ∧ ∃ w, ([0, 4, 6] : List Nat).get? (offset_to_instruction_index [0, 4, 6] 5)
              = some w ∧ w ≤ 5)
      ∧ ((∀ v ∈ ([0, 4, 6] : List Nat), 5 < v) →
          offset_to_instruction_index [0, 4, 6] 5 = 0)
      ∧ ((∀ v ∈ ([0, 4, 6] : List Nat), v ≤ 5) →
          offset_to_instruction_index [0, 4, 6] 5 = ([0, 4, 6] : List Nat).length - 1)
      ∧ offset_to_instruction_index [0, 4, 6] 2 ≤ offset_to_instruction_index [0, 4, 6] 5) :=
  ⟨by simp, by simp, by omega,
   offset_to_instruction_index_spec [0, 4, 6] 5 2 5 (by simp) (by simp) (by omega)⟩

/-- Counterexample to C4 as stated: a failed open does NOT leave every
field of the previous session unchanged.  With a filesystem on which
every read fails, opening from a session whose scroll is 5 and dirty
flag is set returns the error, yet the resulting state has scroll 0
and a cleared dirty flag — the source (files.rs lines 158-167) resets
these fields before the fallible read. -/
theorem open_file_error_mutates_state :
    (open_file (fun _ => none) (fun _ => none) (fun _ => none)
        (AppState.mk "old" true InfoMode.assembly 5 (3, 4) (10, 10) 8 2 3
          [1, 2] Header.none [0] [Instruction.mk 0 1 "x"])
        "new" (80, 24)).2 = Except.error "read failed"
    ∧ (open_file (fun _ => none) (fun _ => none) (fun _ => none)
        (AppState.mk "old" true InfoMode.assembly 5 (3, 4) (10, 10) 8 2 3
          [1, 2] Header.none [0] [Instruction.mk 0 1 "x"])
        "new" (80, 24)).1.scroll ≠ 5
    ∧ (open_file (fun _ => none) (fun _ => none) (fun _ => none)
        (AppState.mk "old" true InfoMode.assembly 5 (3, 4) (10, 10) 8 2 3
          [1, 2] Header.none [0] [Instruction.mk 0 1 "x"])
        "new" (80, 24)).1.dirty ≠ true := by
  refine ⟨rfl, by decide, by decide⟩

/-- C4 (amended): when the read fails, `open_file` returns the error
and leaves the buffer, header and offset index (`assembly_offsets`,
`assembly_instructions`) unchanged, but the path, dirty flag, info
mode, scroll, cursor and geometry have already been reset; when the
read succeeds it replaces all session state in the same call: buffer,
header and offset index from the new file, and the same resets. -/
theorem open_file_state_transition (recognize : List Byte → Option GenericHeader)
    (d : DecodeOne) (fs : String → Option (List Byte)) (st : AppState)
    (path : String) (ss : Nat × Nat) :
    (match fs path with
     | none =>
        (open_file recognize d fs st path ss).2 = Except.error "read failed"
        ∧ (open_file recognize d fs st path ss).1.data = st.data
        ∧ (open_file recognize d fs st path ss).1.header = st.header
        ∧ (open_file recognize d fs st path ss).1.assembly_offsets = st.assembly_offsets
        ∧ (open_file recognize d fs st path ss).1.assembly_instructions
            = st.assembly_instructions
        ∧ (open_file recognize d fs st path ss).1.path = path
        ∧ (open_file recognize d fs st path ss).1.dirty = false
        ∧ (open_file recognize d fs st path ss).1.scroll = 0
        ∧ (open_file recognize d fs st path ss).1.cursor = (0, 0)
        ∧ (open_file recognize d fs st path ss).1.info_mode = InfoMode.text
     | some data =>
        (open_file recognize d fs st path ss).2 = Except.ok ()
        ∧ (open_file recognize d fs st path ss).1.data = data
        ∧ (open_file recognize d fs st path ss).1.header = parse_header recognize data
        ∧ (open_file recognize d fs st path ss).1.assembly_offsets
            = (sections_from_bytes d data (parse_header recognize data)).1
        ∧ (open_file recognize d fs st path ss).1.assembly_instructions
            = (sections_from_bytes d data (parse_header recognize data)).2
        ∧ (open_file recognize d fs st path ss).1.path = path
        ∧ (open_file recognize d fs st path ss).1.dirty = false
        ∧ (open_file recognize d fs st path ss).1.scroll = 0
        ∧ (open_file recognize d fs st path ss).1.cursor = (0, 0)
        ∧ (open_file recognize d fs st path ss).1.info_mode = InfoMode.text
        ∧ (open_file recognize d fs st path ss).1.block_size = 8
        ∧ (open_file recognize d fs st path ss).1.blocks_per_row
            = calc_blocks_per_row 8 ss.1) := by
  rcases hfs : fs path with _ | data <;> simp [open_file, hfs]

/-- C5: the two scroll domains are decoupled: the address/hex/text
scroll mutator leaves `assembly_scroll` untouched for any delta, the
assembly scroll mutator leaves `scroll` untouched for any delta, and
at open the only cross-domain synchronization sets `assembly_scroll`
to `offset_to_instruction_index (scroll * bytes_per_row)`. -/
theorem scroll_domains_decoupled (st : ViewState) (delta1 delta2 : Int)
    (numRows numInstructions : Nat) (offsets : List Nat) (bytes_per_row : Nat) :
    (scroll_by st delta1 numRows).assembly_scroll = st.assembly_scroll
    ∧ (assembly_scroll_by st delta2 numInstructions).scroll = st.scroll
    ∧ (open_view offsets bytes_per_row).assembly_scroll
        = offset_to_instruction_index offsets
            ((open_view offsets bytes_per_row).scroll * bytes_per_row) :=
  ⟨rfl, rfl, rfl⟩

/-- C6: header parsing is a total function (it always returns a
`Header` value, never an error); when the external matcher recognizes
nothing, the result is the `Header.none` variant, downstream consumers
assume 64-bit, and the decoded regions are exactly one executable
region covering the entire buffer from offset 0. -/
theorem parse_header_none_defaults (recognize : List Byte → Option GenericHeader)
    (bytes : List Byte) (hnone : recognize bytes = none) :
    parse_header recognize bytes = Header.none
    ∧ Header.bitness (parse_header recognize bytes) = 64
    ∧ decoded_regions (parse_header recognize bytes) bytes.length
        = [(0, bytes.length)] := by
  have hp : parse_header recognize bytes = Header.none := by
    simp [parse_header, hnone]
  refine ⟨hp, ?_, ?_⟩
  · rw [hp]
    rfl
  · rw [hp]
    rfl

/-- Witness for C6 at a concrete matcher and buffer. -/
theorem parse_header_none_defaults_witness :
    (fun (_ : List Byte) => (none : Option GenericHeader)) [1, 2, 3] = none
    ∧ (parse_header (fun _ => none) [1, 2, 3] = Header.none
      ∧ Header.bitness (parse_header (fun _ => none) ([1, 2, 3] : List Byte)) = 64
      ∧ decoded_regions (parse_header (fun _ => none) ([1, 2, 3] : List Byte))
          ([1, 2, 3] : List Byte).length = [(0, ([1, 2, 3] : List Byte).length)]) :=
  ⟨rfl, parse_header_none_defaults (fun _ => none) [1, 2, 3] rfl⟩

/-- C7: geometry computation is deterministic and stateless: any two
sessions with the same block size get the same `blocks_per_row` for
the same viewport width, and a resize never mutates the header or the
offset index. -/
theorem calc_blocks_per_row_pure (s1 s2 : AppState) (width : Nat)
    (hbs : s1.block_size = s2.block_size) :
    calc_blocks_per_row s1.block_size width = calc_blocks_per_row s2.block_size width
    ∧ (resize s1 width).blocks_per_row = (resize s2 width).blocks_per_row
    ∧ (resize s1 width).header = s1.header
    ∧ (resize s1 width).assembly_offsets = s1.assembly_offsets
    ∧ (resize s1 width).assembly_instructions = s1.assembly_instructions := by
  refine ⟨by rw [hbs], ?_, rfl, rfl, rfl⟩
  simp [resize, hbs]

/-- Witness for C7 at two concrete sessions that share only the block
size. -/
theorem calc_blocks_per_row_pure_witness :
    (AppState.mk "a" true InfoMode.text 1 (0, 0) (5, 5) 8 2 3
        [1] Header.none [] []).block_size
      = (AppState.mk "b" false InfoMode.assembly 9 (7, 7) (1, 1) 8 2 7
        [2, 3] Header.none [0] []).block_size
    ∧ (calc_blocks_per_row
          (AppState.mk "a" true InfoMode.text 1 (0, 0) (5, 5) 8 2 3
            [1] Header.none [] []).block_size 100
        = calc_blocks_per_row
          (AppState.mk "b" false InfoMode.assembly 9 (7, 7) (1, 1) 8 2 7
            [2, 3] Header.none [0] []).block_size 100
      ∧ (resize (AppState.mk "a" true InfoMode.text 1 (0, 0) (5, 5) 8 2 3
            [1] Header.none [] []) 100).blocks_per_row
        = (resize (AppState.mk "b" false InfoMode.assembly 9 (7, 7) (1, 1) 8 2 7
            [2, 3] Header.none [0] []) 100).blocks_per_row
      ∧ (resize (AppState.mk "a" true InfoMode.text 1 (0, 0) (5, 5) 8 2 3
            [1] Header.none [] []) 100).header
        = (AppState.mk "a" true InfoMode.text 1 (0, 0) (5, 5) 8 2 3
            [1] Header.none [] []).header
      ∧ (resize (AppState.mk "a" true InfoMode.text 1 (0, 0) (5, 5) 8 2 3
            [1] Header.none [] []) 100).assembly_offsets
        = (AppState.mk "a" true InfoMode.text 1 (0, 0) (5, 5) 8 2 3
            [1] Header.none [] []).assembly_offsets
      ∧ (resize (AppState.mk "a" true InfoMode.text 1 (0, 0) (5, 5) 8 2 3
            [1] Header.none [] []) 100).assembly_instructions
        = (AppState.mk "a" true InfoMode.text 1 (0, 0) (5, 5) 8 2 3
            [1] Header.none [] []).assembly_instructions) :=
  ⟨rfl, calc_blocks_per_row_pure _ _ 100 rfl⟩

/-- C8: for every readable file, opening it (zero edits) and then
saving writes a byte-for-byte identical filesystem: the open succeeds
and saving the opened session maps every path, including the opened
one, to exactly what the filesystem already held. -/
theorem open_then_save_identity (recognize : List Byte → Option GenericHeader)
    (d : DecodeOne) (fs : String → Option (List Byte)) (st : AppState)
    (path : String) (ss : Nat × Nat) (contents : List Byte)
    (hread : fs path = some contents) :
    (open_file recognize d fs st path ss).2 = Except.ok ()
    ∧ ∀ p, save fs (open_file recognize d fs st path ss).1 p = fs p := by
  constructor
  · simp [open_file, hread]
  · intro p
    have hpath : (open_file recognize d fs st path ss).1.path = path := by
      simp [open_file, hread]
    have hdata : (open_file recognize d fs st path ss).1.data = contents := by
      simp [open_file, hread]
    rw [save, fs_update, hpath, hdata]
    by_cases hp : p = path
    · subst hp
      simp [hread]
    · simp [hp]

/-- Witness for C8 at a concrete one-file filesystem. -/
theorem open_then_save_identity_witness :
    (fun p => if p = "f" then some ([7, 8] : List Byte) else none) "f" = some [7, 8]
    ∧ ((open_file (fun _ => none) (fun _ => none)
          (fun p => if p = "f" then some ([7, 8] : List Byte) else none)
          (AppState.mk "old" false InfoMode.text 0 (0, 0) (0, 0) 8 2 1
            [] Header.none [] [])
          "f" (80, 24)).2 = Except.ok ()
      ∧ ∀ p, save (fun p => if p = "f" then some ([7, 8] : List Byte) else none)
          (open_file (fun _ => none) (fun _ => none)
            (fun p => if p = "f" then some ([7, 8] : List Byte) else none)
            (AppState.mk "old" false InfoMode.text 0 (0, 0) (0, 0) 8 2 1
              [] Header.none [] [])
            "f" (80, 24)).1 p
          = (fun p => if p = "f" then some ([7, 8] : List Byte) else none) p) :=
  ⟨rfl,
   open_then_save_identity (fun _ => none) (fun _ => none)
     (fun p => if p = "f" then some ([7, 8] : List Byte) else none)
     (AppState.mk "old" false InfoMode.text 0 (0, 0) (0, 0) 8 2 1
       [] Header.none [] [])
     "f" (80, 24) [7, 8] rfl⟩

/-- Counterexample to C9 as stated: the render slicing is NOT in
bounds for every reachable state and every frame height.  The state
reached by opening a 1-byte file (one hex row) and scrolling to row 1
is reachable (the spec clamps scroll to the number of rows), yet at
frame height 1 the slice range is `[1, 0)`, on which Rust's
`&lines[1..0]` panics. -/
theorem render_slice_not_always_in_bounds :
    Reachable { App.new ([0] : List Byte) with scroll := 1 }
    ∧ ¬ slice_in_bounds { App.new ([0] : List Byte) with scroll := 1 } 1 := by
  constructor
  · exact Reachable.scroll_to (App.new [0]) 1 (Reachable.init [0]) (by decide)
  · intro h
    exact absurd h.1 (by decide)

/-- C9 (amended): in every reachable `App` state, scroll is at most
the number of hex-view rows and the address and text views have
exactly as many lines as the hex view, so for every frame height of at
least 2 the render pass's slicing of the three line lists with
`[scroll, min (scroll + height - 2) hex_len)` is in bounds and cannot
panic.  (At height 1 with a positive scroll the range is reversed and
the slice panics; heights 0 and 1 already underflow earlier in the
render pass, app.rs lines 209-218.) -/
theorem render_slice_in_bounds (st : RunState) (height : Nat)
    (hr : Reachable st) (hh : 2 ≤ height) :
    st.scroll ≤ st.hex_view.length
    ∧ st.address_view.length = st.hex_view.length
    ∧ st.text_view.length = st.hex_view.length
    ∧ slice_in_bounds st height := by
  have hinv : st.scroll ≤ st.hex_view.length
      ∧ st.address_view.length = st.hex_view.length
      ∧ st.text_view.length = st.hex_view.length := by
    induction hr with
    | init data =>
      refine ⟨Nat.zero_le _, ?_, ?_⟩
      · simp [App.new, addresses, bytes_to_styled_hex,
          chunkBy_length 24 data (by omega)]
      · simp [App.new, bytes_to_styled_text, bytes_to_styled_hex,
          chunkBy_length 24 data (by omega)]
    | scroll_to st' n _ hn ih =>
      exact ⟨hn, ih.2.1, ih.2.2⟩
  refine ⟨hinv.1, hinv.2.1, hinv.2.2, ?_, ?_, ?_, ?_⟩
  · rw [line_start_index, line_end_index]
    omega
  · rw [line_end_index, hinv.2.1]
    omega
  · rw [line_end_index]
    omega
  · rw [line_end_index, hinv.2.2]
    omega

/-- Witness for C9 at the freshly opened 1-byte session and height 2. -/
theorem render_slice_in_bounds_witness :
    Reachable (App.new ([0] : List Byte)) ∧ 2 ≤ 2
    ∧ ((App.new ([0] : List Byte)).scroll ≤ (App.new ([0] : List Byte)).hex_view.length
      ∧ (App.new ([0] : List Byte)).address_view.length
          = (App.new ([0] : List Byte)).hex_view.length
      ∧ (App.new ([0] : List Byte)).text_view.length
          = (App.new ([0] : List Byte)).hex_view.length
      ∧ slice_in_bounds (App.new ([0] : List Byte)) 2) :=
  ⟨Reachable.init [0], Nat.le_refl 2,
   render_slice_in_bounds (App.new [0]) 2 (Reachable.init [0]) (Nat.le_refl 2)⟩

/-- C10: with `plugin_index = some i`, `open_popup` errors exactly when
a popup is already open or no Lua global function named `callback`
exists; on error the context (in particular its popup field) is
unchanged, and on success the popup field becomes
`some (plugin_index, callback)` — the `Option` type itself enforcing
at most one registered plugin popup. -/
theorem open_popup_spec (globals : String → Bool) (ctx : AppContext)
    (callback : String) (i : Nat) (hpi : ctx.plugin_index = some i) :
    ((∃ e, (open_popup globals ctx callback).2 = Except.error e)
        ↔ (ctx.popup.isSome = true ∨ globals callback = false))
    ∧ ((∃ e, (open_popup globals ctx callback).2 = Except.error e) →
        (open_popup globals ctx callback).1 = ctx)
    ∧ ((open_popup globals ctx callback).2 = Except.ok () →
        (open_popup globals ctx callback).1.popup = some (i, callback)) := by
  by_cases h1 : ctx.popup.isSome
  · simp [open_popup, h1]
  · by_cases h2 : globals callback
    · simp [open_popup, h1, h2, hpi]
    · simp only [Bool.not_eq_true] at h2
      simp [open_popup, h1, h2]

/-- Witness for C10 at a concrete context with no popup open and a
global table containing the callback. -/
theorem open_popup_spec_witness :
    (AppContext.mk (some 3) none []).plugin_index = some 3
    ∧ (((∃ e, (open_popup (fun s => s == "cb") (AppContext.mk (some 3) none []) "cb").2
            = Except.error e)
          ↔ ((AppContext.mk (some 3) none []).popup.isSome = true
            ∨ (fun s => s == "cb") "cb" = false))
      ∧ ((∃ e, (open_popup (fun s => s == "cb") (AppContext.mk (some 3) none []) "cb").2
            = Except.error e) →
          (open_popup (fun s => s == "cb") (AppContext.mk (some 3) none []) "cb").1
            = AppContext.mk (some 3) none [])
      ∧ ((open_popup (fun s => s == "cb") (AppContext.mk (some 3) none []) "cb").2
            = Except.ok () →
          (open_popup (fun s => s == "cb") (AppContext.mk (some 3) none []) "cb").1.popup
            = some (3, "cb"))) :=
  ⟨rfl, open_popup_spec (fun s => s == "cb") (AppContext.mk (some 3) none []) "cb" 3 rfl⟩

end HexEdit
